import Mathlib

/-!
Verification of the Peer Collaboration Ranking & Feedback Assignment Engine.

This file is a shallow embedding, in Lean 4, of the engine implemented in
`src/services/peer-ranker.ts`, `src/services/feedback-assigner.ts`,
`src/services/collaboration-tracker.ts` and the `autoCloseCycles` routine of
`src/services/structured-prompts.ts`, over the relational schema of
`src/config/migrate.ts`.

Modelling conventions:
* SQLite rows become Lean structures; tables become lists of rows inside a
  `DB` state record; SQL statements become pure functions on `DB`.
* Timestamps are rationals, read as milliseconds since the epoch (the unit
  used by JavaScript `Date.getTime`); `86400000` is one day.
* JavaScript numbers are modelled as `ℚ`; SQL `NULL` becomes `Option`.
* `Object.entries` on an object keyed by numeric ids enumerates the keys in
  ascending numeric order, and `Array.prototype.sort` is stable; both facts
  are part of the JavaScript semantics and are reflected by `peersOf`
  (ascending insertion) and `sortByScore` (stable insertion sort).
* A thrown exception is modelled by returning the state reached so far
  together with an error value: SQLite writes performed before the throw
  persist, since the code uses no transactions.
-/

/-- One row of the `collaborations` table (`migrate.ts`): an aggregated
interaction record between `employee_id` and `peer_id` of one
`interaction_type`. -/
structure Collab where
  employee_id : Nat
  peer_id : Nat
  interaction_type : String
  interaction_count : ℚ
  total_minutes : ℚ
  last_interaction : ℚ
deriving DecidableEq

/-- The `CollaborationMetric` interface of `peer-ranker.ts`: one aggregated
`(peer, interaction_type)` group as produced by the `GROUP BY` query in
`rankPeers`. -/
structure CollaborationMetric where
  peer_id : Nat
  interaction_type : String
  interaction_count : ℚ
  total_minutes : ℚ
  last_interaction : ℚ
deriving DecidableEq

/-- The `PeerRanking` interface of `peer-ranker.ts`. -/
structure PeerRanking where
  peer_id : Nat
  collaboration_score : ℚ
  rank_position : Nat
deriving DecidableEq

/-- Maximum of two rationals, written as the comparison JavaScript's
`Math.max` performs; identical to `max` but unfolded so that concrete
evaluation reduces. -/
def qmax (a b : ℚ) : ℚ := if a ≤ b then b else a

/-- The `WEIGHTS` table of `peer-ranker.ts` together with the `|| 1` default
applied at its use site: chat=1, meeting=3, task=5, file=2, anything else 1. -/
def WEIGHTS (t : String) : ℚ :=
  if t = "chat" then 1
  else if t = "meeting" then 3
  else if t = "task" then 5
  else if t = "file" then 2
  else 1

/-- `calculateCollaborationScore` of `peer-ranker.ts`.  `now` stands for
`Date.now()`.  The base score accumulates `count * weight + minutes / 10`
over the metrics; when at least one metric exists it is multiplied by
`max(0.5, 1 - daysSinceLastInteraction / 90)`, where the days are measured
from the most recent `last_interaction` over all metrics. -/
def calculateCollaborationScore (now : ℚ) (metrics : List CollaborationMetric) : ℚ :=
  let score := metrics.foldl
    (fun s m => s + m.interaction_count * WEIGHTS m.interaction_type + m.total_minutes / 10) 0
  match metrics with
  | [] => score
  | m :: ms =>
    let mostRecent := ms.foldl (fun acc x => qmax acc x.last_interaction) m.last_interaction
    let daysSince := (now - mostRecent) / 86400000
    score * qmax (1/2) (1 - daysSince / 90)

/-- Insert a peer id into a strictly ascending list of peer ids, keeping it
strictly ascending (duplicates are dropped).  Together with `peersOf` this
models the enumeration order of `Object.entries(peerMetrics)` in
`rankPeers`: JavaScript enumerates integer-like keys in ascending numeric
order, each key once. -/
def insertPeer (x : Nat) : List Nat → List Nat
  | [] => [x]
  | y :: ys => if x < y then x :: y :: ys else if x = y then y :: ys else y :: insertPeer x ys

/-- The set of peer ids occurring in a list of collaboration rows, in the
ascending order in which `Object.entries` enumerates them. -/
def peersOf (rows : List Collab) : List Nat :=
  rows.foldl (fun acc r => insertPeer r.peer_id acc) []

/-- Fold a maximum over a list, `0` on the empty list (only used on
nonempty groups). -/
def maxList : List ℚ → ℚ
  | [] => 0
  | x :: xs => xs.foldl qmax x

/-- First-occurrence deduplication, modelling SQL `GROUP BY` group headers
for one peer. -/
def firstDedup (ts : List String) : List String :=
  ts.foldl (fun acc t => if t ∈ acc then acc else acc ++ [t]) []

/-- The `GROUP BY peer_id, interaction_type` aggregation of `rankPeers` for
one peer `p`: for each interaction type occurring with `p`, the summed
counts, summed minutes and latest interaction time. -/
def metricsFor (rows : List Collab) (p : Nat) : List CollaborationMetric :=
  let mine := rows.filter (fun r => r.peer_id = p)
  (firstDedup (mine.map (·.interaction_type))).map fun t =>
    let grp := mine.filter (fun r => r.interaction_type = t)
    { peer_id := p
      interaction_type := t
      interaction_count := (grp.map (·.interaction_count)).sum
      total_minutes := (grp.map (·.total_minutes)).sum
      last_interaction := maxList (grp.map (·.last_interaction)) }

/-- Stable insertion step of `sortByScore`: the new element is placed before
the first element whose score is not strictly greater, exactly the order a
stable sort with comparator `(a, b) => b.collaboration_score -
a.collaboration_score` produces. -/
def insertByScore (x : PeerRanking) : List PeerRanking → List PeerRanking
  | [] => [x]
  | y :: ys =>
    if y.collaboration_score ≤ x.collaboration_score then x :: y :: ys
    else y :: insertByScore x ys

/-- The `rankings.sort((a, b) => b.collaboration_score -
a.collaboration_score)` call of `rankPeers`: a stable sort by score
descending. -/
def sortByScore : List PeerRanking → List PeerRanking
  | [] => []
  | x :: xs => insertByScore x (sortByScore xs)

/-- The `rankings.forEach((ranking, index) => ranking.rank_position = index
+ 1)` pass of `rankPeers`, generalised to an arbitrary first position `k`. -/
def assignRanks (k : Nat) : List PeerRanking → List PeerRanking
  | [] => []
  | r :: rs => { r with rank_position := k } :: assignRanks (k + 1) rs

/-- The pure computation inside `rankPeers` of `peer-ranker.ts`: restrict
the `collaborations` table to `employee_id = e`, aggregate by peer and
type, score each peer, sort by score descending (stable), and assign dense
rank positions starting at 1. -/
def rankPeersPure (tbl : List Collab) (e : Nat) (now : ℚ) : List PeerRanking :=
  let mine := tbl.filter (fun r => r.employee_id = e)
  let scored := (peersOf mine).map fun p =>
    { peer_id := p
      collaboration_score := calculateCollaborationScore now (metricsFor mine p)
      rank_position := 0 }
  assignRanks 1 (sortByScore scored)

/-- One row of the `employees` table, restricted to the columns the engine
reads: `id`, `manager_id` (NULLable) and the `is_manager` flag. -/
structure Employee where
  id : Nat
  manager_id : Option Nat
  is_manager : Bool
deriving DecidableEq

/-- One row of the `peer_rankings` table. -/
structure PeerRankingRow where
  employee_id : Nat
  peer_id : Nat
  collaboration_score : ℚ
  rank_position : Nat
deriving DecidableEq

/-- One row of the `feedback_cycles` table, restricted to the columns the
modelled operations read: `id`, `end_date` and `status`. -/
structure FeedbackCycle where
  id : String
  end_date : ℚ
  status : String
deriving DecidableEq

/-- One row of the `feedback_requests` table (columns the engine writes or
reads; `completed_at` is NULLable). -/
structure FeedbackRequest where
  id : Nat
  requester_id : Nat
  provider_id : Nat
  cycle_id : String
  request_type : String
  status : String
  due_date : ℚ
  completed_at : Option ℚ
deriving DecidableEq

/-- One row of the `feedback_responses` table, restricted to the columns
`filterRecentFeedback` reads. -/
structure FeedbackResponse where
  requester_id : Nat
  provider_id : Nat
  submitted_at : ℚ
deriving DecidableEq

/-- The database state the engine manipulates.  `next_request_id` models
SQLite's AUTOINCREMENT counter for `feedback_requests`. -/
structure DB where
  employees : List Employee
  collaborations : List Collab
  peer_rankings : List PeerRankingRow
  feedback_cycles : List FeedbackCycle
  feedback_requests : List FeedbackRequest
  feedback_responses : List FeedbackResponse
  next_request_id : Nat
deriving DecidableEq

/-- The upsert statement of `recordInteraction` in
`collaboration-tracker.ts`: `INSERT ... ON CONFLICT(employee_id, peer_id,
interaction_type) DO UPDATE` — if a row with this key exists its count and
minutes are incremented and `last_interaction` refreshed, otherwise a new
row is appended. -/
def upsertCollab (tbl : List Collab) (e p : Nat) (t : String) (c m now : ℚ) : List Collab :=
  if tbl.any (fun r => r.employee_id = e ∧ r.peer_id = p ∧ r.interaction_type = t) then
    tbl.map fun r =>
      if r.employee_id = e ∧ r.peer_id = p ∧ r.interaction_type = t then
        { r with interaction_count := r.interaction_count + c,
                 total_minutes := r.total_minutes + m,
                 last_interaction := now }
      else r
  else tbl ++ [⟨e, p, t, c, m, now⟩]

/-- `recordInteraction` of `collaboration-tracker.ts`: the upsert is run for
`(employeeId, peerId)` and then again with the two ids swapped (the
"bidirectional" reverse interaction). -/
def recordInteraction (db : DB) (employeeId peerId : Nat) (t : String) (c m now : ℚ) : DB :=
  { db with collaborations :=
      (upsertCollab (upsertCollab db.collaborations employeeId peerId t c m now)
        peerId employeeId t c m now) }

/-- `saveRankings` composed with the computation of `rankPeers` in
`peer-ranker.ts`: existing `peer_rankings` rows of this employee are
deleted and the freshly computed rankings inserted. -/
def rankPeers (db : DB) (e : Nat) (now : ℚ) : DB :=
  { db with peer_rankings :=
      ((db.peer_rankings.filter fun r => ¬ r.employee_id = e) ++
        (rankPeersPure db.collaborations e now).map fun r =>
          ⟨e, r.peer_id, r.collaboration_score, r.rank_position⟩) }

/-- `rankAllPeers` of `peer-ranker.ts`: `rankPeers` for every employee in
table order. -/
def rankAllPeers (db : DB) (now : ℚ) : DB :=
  db.employees.foldl (fun s emp => rankPeers s emp.id now) db

/-- Stable ascending insertion by `rank_position`, the order of `ORDER BY
rank_position ASC`. -/
def insertByPos (x : PeerRankingRow) : List PeerRankingRow → List PeerRankingRow
  | [] => [x]
  | y :: ys =>
    if x.rank_position ≤ y.rank_position then x :: y :: ys
    else y :: insertByPos x ys

/-- Sort `peer_rankings` rows by `rank_position` ascending. -/
def sortByPos : List PeerRankingRow → List PeerRankingRow
  | [] => []
  | x :: xs => insertByPos x (sortByPos xs)

/-- `getRankedPeers` of `peer-ranker.ts`: the employee's `peer_rankings`
rows, inner-joined with `employees` on the peer id, ordered by
`rank_position` and truncated to `lim`. -/
def getRankedPeers (db : DB) (e : Nat) (lim : Nat) : List PeerRankingRow :=
  (sortByPos ((db.peer_rankings.filter fun r => r.employee_id = e).filter
    fun r => db.employees.any fun emp => emp.id = r.peer_id)).take lim

/-- `filterRecentFeedback` of `feedback-assigner.ts`: drop every candidate
peer who appears as `provider_id` of a `feedback_responses` row for this
requester submitted within the last 30 days. -/
def filterRecentFeedback (db : DB) (peers : List PeerRankingRow) (requesterId : Nat)
    (now : ℚ) : List PeerRankingRow :=
  let thirtyDaysAgo := now - 30 * 86400000
  let recentProviderIds := (db.feedback_responses.filter fun r =>
    r.requester_id = requesterId ∧ thirtyDaysAgo < r.submitted_at).map (·.provider_id)
  peers.filter fun peer => ¬ peer.peer_id ∈ recentProviderIds

/-- `checkExistingAssignment` of `feedback-assigner.ts`: does a
`feedback_requests` row with this `(requester_id, provider_id, cycle_id)`
key exist? -/
def checkExistingAssignment (db : DB) (requesterId providerId : Nat) (cycleId : String) : Bool :=
  db.feedback_requests.any fun q =>
    q.requester_id = requesterId ∧ q.provider_id = providerId ∧ q.cycle_id = cycleId

/-- `createFeedbackRequest` of `feedback-assigner.ts`: insert one
`feedback_requests` row with status `pending` (the column default) and no
`completed_at`; returns the new state and the created row. -/
def createFeedbackRequest (db : DB) (requesterId providerId : Nat) (cycleId : String)
    (requestType : String) (dueDate : ℚ) : DB × FeedbackRequest :=
  let req : FeedbackRequest :=
    ⟨db.next_request_id, requesterId, providerId, cycleId, requestType, "pending", dueDate, none⟩
  ({ db with feedback_requests := db.feedback_requests ++ [req],
             next_request_id := db.next_request_id + 1 }, req)

/-- `getCycle` of `feedback-assigner.ts`. -/
def getCycle (db : DB) (cycleId : String) : Option FeedbackCycle :=
  db.feedback_cycles.find? fun c => c.id = cycleId

/-- The inner `for (const peer of selectedPeers)` loop of
`assignFeedbackRequests` (also reused, with request type `upward`, for the
direct-report loop, which has the same body): for each provider id, create
a request unless one with the same `(requester, provider, cycle)` key
already exists.  Threads the database state and the `assignments`
accumulator. -/
def createRequestsFor : List Nat → Nat → String → String → ℚ →
    DB → List FeedbackRequest → DB × List FeedbackRequest
  | [], _, _, _, _, db, acc => (db, acc)
  | p :: rest, requesterId, cycleId, requestType, dueDate, db, acc =>
    if checkExistingAssignment db requesterId p cycleId then
      createRequestsFor rest requesterId cycleId requestType dueDate db acc
    else
      let s := createFeedbackRequest db requesterId p cycleId requestType dueDate
      createRequestsFor rest requesterId cycleId requestType dueDate s.1 (acc ++ [s.2])

/-- The peer ids selected for one employee: top `peersPerEmployee + 10`
ranked peers, minus recent feedback providers, truncated to
`peersPerEmployee`. -/
def selectedPeerIds (db : DB) (e : Nat) (peersPerEmployee : Nat) (now : ℚ) : List Nat :=
  ((filterRecentFeedback db (getRankedPeers db e (peersPerEmployee + 10)) e now).take
    peersPerEmployee).map (·.peer_id)

/-- The direct reports of an employee: `SELECT id FROM employees WHERE
manager_id = ?`. -/
def reportIds (db : DB) (e : Nat) : List Nat :=
  (db.employees.filter fun emp => emp.manager_id = some e).map (·.id)

/-- The `Add manager feedback` block of `assignFeedbackRequests`: when the
employee has a manager, create a `manager` request towards the manager
unless one already exists. -/
def managerStep (e : Employee) (cycleId : String) (dueDate : ℚ)
    (s : DB × List FeedbackRequest) : DB × List FeedbackRequest :=
  match e.manager_id with
  | none => s
  | some m =>
    if checkExistingAssignment s.1 e.id m cycleId then s
    else
      let t := createFeedbackRequest s.1 e.id m cycleId "manager" dueDate
      (t.1, s.2 ++ [t.2])

/-- The `Add upward feedback` block of `assignFeedbackRequests`: when the
employee is a manager, an `upward` request towards each direct report,
each gated by the existence check. -/
def reportsStep (e : Employee) (cycleId : String) (dueDate : ℚ)
    (s : DB × List FeedbackRequest) : DB × List FeedbackRequest :=
  if e.is_manager then
    createRequestsFor (reportIds s.1 e.id) e.id cycleId "upward" dueDate s.1 s.2
  else s

/-- The body of the `for (const employee of employees)` loop of
`assignFeedbackRequests`: peer requests for the selected ranked peers,
then — when `include360` — the manager and direct-report blocks. -/
def assignEmployee (e : Employee) (cycleId : String) (dueDate : ℚ) (peersPerEmployee : Nat)
    (include360 : Bool) (now : ℚ) (db : DB) (acc : List FeedbackRequest) :
    DB × List FeedbackRequest :=
  let s1 := createRequestsFor (selectedPeerIds db e.id peersPerEmployee now) e.id cycleId
    "peer" dueDate db acc
  if include360 then reportsStep e cycleId dueDate (managerStep e cycleId dueDate s1) else s1

/-- The `for (const employee of employees)` loop of
`assignFeedbackRequests`. -/
def assignLoop : List Employee → String → ℚ → Nat → Bool → ℚ →
    DB → List FeedbackRequest → DB × List FeedbackRequest
  | [], _, _, _, _, _, db, acc => (db, acc)
  | e :: rest, cycleId, dueDate, peersPerEmployee, include360, now, db, acc =>
    let s := assignEmployee e cycleId dueDate peersPerEmployee include360 now db acc
    assignLoop rest cycleId dueDate peersPerEmployee include360 now s.1 s.2

/-- `assignFeedbackRequests` of `feedback-assigner.ts`.  It first runs
`rankAllPeers`, then looks the cycle up — `none` models the thrown `Cycle
not found`, with the ranking writes already persisted — and then processes
every employee.  Returns the final state and, on success, the list of
created requests. -/
def assignFeedbackRequests (db : DB) (cycleId : String) (peersPerEmployee : Nat)
    (include360 : Bool) (now : ℚ) : DB × Option (List FeedbackRequest) :=
  let db0 := rankAllPeers db now
  match getCycle db0 cycleId with
  | none => (db0, none)
  | some cycle =>
    let s := assignLoop db0.employees cycleId cycle.end_date peersPerEmployee include360 now db0 []
    (s.1, some s.2)

/-- `updateRequestStatus` of `feedback-assigner.ts`: `SET status = ?,
completed_at = CASE WHEN ? = 'completed' THEN datetime('now') ELSE
completed_at END WHERE id = ?`. -/
def updateRequestStatus (db : DB) (requestId : Nat) (status : String) (now : ℚ) : DB :=
  { db with feedback_requests := db.feedback_requests.map fun r =>
      if r.id = requestId then
        { r with status := status,
                 completed_at := if status = "completed" then some now else r.completed_at }
      else r }

/-- The result row of `getCycleStats`.  SQLite's `SUM` over an empty set is
NULL, hence the `Option` columns; `completion_rate` is also NULL when the
cycle has no requests (`NULL / 0` is NULL in SQLite — no runtime fault). -/
structure CycleStats where
  total_requests : Nat
  completed_count : Option Nat
  pending_count : Option Nat
  overdue_count : Option Nat
  completion_rate : Option ℚ
deriving DecidableEq

/-- SQLite `ROUND(x, 2)` for the non-negative values occurring here: round
half away from zero to two decimals. -/
def round2 (x : ℚ) : ℚ := (Rat.floor (x * 100 + 1/2) : ℚ) / 100

/-- `getCycleStats` of `feedback-assigner.ts`: aggregates over the cycle's
requests. -/
def getCycleStats (db : DB) (cycleId : String) : CycleStats :=
  let rs := db.feedback_requests.filter fun r => r.cycle_id = cycleId
  let total := rs.length
  let completed := (rs.filter fun r => r.status = "completed").length
  let pending := (rs.filter fun r => r.status = "pending").length
  let overdue := (rs.filter fun r => r.status = "overdue").length
  { total_requests := total
    completed_count := if total = 0 then none else some completed
    pending_count := if total = 0 then none else some pending
    overdue_count := if total = 0 then none else some overdue
    completion_rate :=
      if total = 0 then none else some (round2 ((completed : ℚ) / (total : ℚ) * 100)) }

/-- The inner closing condition of `autoCloseCycles`
(`structured-prompts.ts`), evaluated for a cycle that is already known to
be active with `end_date < now`: close when `completed / total >= 0.9`
(with `null / 0`, i.e. an empty cycle, giving NaN and hence false) or when
`Math.ceil((now - end_date) / dayMs) >= 7`. -/
def closeCondition (requests : List FeedbackRequest) (now : ℚ) (c : FeedbackCycle) : Bool :=
  let rs := requests.filter fun r => r.cycle_id = c.id
  let total := rs.length
  let completed := (rs.filter fun r => r.status = "completed").length
  (¬ total = 0 ∧ (9 : ℚ)/10 ≤ (completed : ℚ) / (total : ℚ)) ∨
    (7 : ℤ) ≤ Rat.ceil ((now - c.end_date) / 86400000)

/-- `autoCloseCycles` of `structured-prompts.ts`: select the active cycles
whose `end_date` lies before `now`, and set each one satisfying
`closeCondition` to `completed` (an `UPDATE ... WHERE id = ?` per cycle). -/
def autoCloseCycles (db : DB) (now : ℚ) : DB :=
  let endedCycles := db.feedback_cycles.filter fun c =>
    c.status = "active" ∧ c.end_date < now
  { db with feedback_cycles :=
      (endedCycles.foldl (fun cs c =>
        if closeCondition db.feedback_requests now c then
          cs.map fun r => if r.id = c.id then { r with status := "completed" } else r
        else cs) db.feedback_cycles) }

/-- Storage-fault model for `INSERT INTO feedback_requests`: `fail
requester provider = true` means the insert for that pair throws.  Used to
examine how `assignFeedbackRequests` behaves under a storage error; the
non-faulting instantiation is `fun _ _ => false`. -/
abbrev InsertFault := Nat → Nat → Bool

/-- `createRequestsFor` under the storage-fault model: a faulting insert
throws, which aborts the loop; writes made before the throw persist. -/
def createRequestsForF (fault : InsertFault) : List Nat → Nat → String → String → ℚ →
    DB → List FeedbackRequest → DB × Except String (List FeedbackRequest)
  | [], _, _, _, _, db, acc => (db, .ok acc)
  | p :: rest, requesterId, cycleId, requestType, dueDate, db, acc =>
    if checkExistingAssignment db requesterId p cycleId then
      createRequestsForF fault rest requesterId cycleId requestType dueDate db acc
    else if fault requesterId p then (db, .error "SQLITE_ERROR")
    else
      let s := createFeedbackRequest db requesterId p cycleId requestType dueDate
      createRequestsForF fault rest requesterId cycleId requestType dueDate s.1 (acc ++ [s.2])

/-- The manager block under the storage-fault model. -/
def managerStepF (fault : InsertFault) (e : Employee) (cycleId : String) (dueDate : ℚ)
    (db : DB) (acc : List FeedbackRequest) : DB × Except String (List FeedbackRequest) :=
  match e.manager_id with
  | none => (db, .ok acc)
  | some m =>
    if checkExistingAssignment db e.id m cycleId then (db, .ok acc)
    else if fault e.id m then (db, .error "SQLITE_ERROR")
    else
      let t := createFeedbackRequest db e.id m cycleId "manager" dueDate
      (t.1, .ok (acc ++ [t.2]))

/-- `assignEmployee` under the storage-fault model: an error in any block
short-circuits the rest of the employee's processing. -/
def assignEmployeeF (fault : InsertFault) (e : Employee) (cycleId : String) (dueDate : ℚ)
    (peersPerEmployee : Nat) (include360 : Bool) (now : ℚ) (db : DB)
    (acc : List FeedbackRequest) : DB × Except String (List FeedbackRequest) :=
  match createRequestsForF fault (selectedPeerIds db e.id peersPerEmployee now) e.id cycleId
    "peer" dueDate db acc with
  | (db1, .error msg) => (db1, .error msg)
  | (db1, .ok acc1) =>
    if include360 then
      match managerStepF fault e cycleId dueDate db1 acc1 with
      | (db2, .error msg) => (db2, .error msg)
      | (db2, .ok acc2) =>
        if e.is_manager then
          createRequestsForF fault (reportIds db2 e.id) e.id cycleId "upward" dueDate db2 acc2
        else (db2, .ok acc2)
    else (db1, .ok acc1)

/-- The employee loop under the storage-fault model: an exception thrown
while processing one employee propagates, so the remaining employees are
never visited. -/
def assignLoopF (fault : InsertFault) : List Employee → String → ℚ → Nat → Bool → ℚ →
    DB → List FeedbackRequest → DB × Except String (List FeedbackRequest)
  | [], _, _, _, _, _, db, acc => (db, .ok acc)
  | e :: rest, cycleId, dueDate, peersPerEmployee, include360, now, db, acc =>
    match assignEmployeeF fault e cycleId dueDate peersPerEmployee include360 now db acc with
    | (db1, .error msg) => (db1, .error msg)
    | (db1, .ok acc1) =>
      assignLoopF fault rest cycleId dueDate peersPerEmployee include360 now db1 acc1

/-- `assignFeedbackRequests` under the storage-fault model. -/
def assignFeedbackRequestsF (fault : InsertFault) (db : DB) (cycleId : String)
    (peersPerEmployee : Nat) (include360 : Bool) (now : ℚ) :
    DB × Except String (List FeedbackRequest) :=
  let db0 := rankAllPeers db now
  match getCycle db0 cycleId with
  | none => (db0, .error "Cycle not found")
  | some cycle =>
    assignLoopF fault db0.employees cycleId cycle.end_date peersPerEmployee include360 now db0 []

/-! ## Lemmas about the ranking computation -/

theorem insertPeer_mem {a x : Nat} {l : List Nat} :
    a ∈ insertPeer x l ↔ a = x ∨ a ∈ l := by
  induction l with
  | nil => simp [insertPeer]
  | cons y ys ih =>
    by_cases h1 : x < y
    · simp [insertPeer, h1]
    · by_cases h2 : x = y
      · subst h2
        simp [insertPeer, h1]
      · simp [insertPeer, h1, h2, ih]
        tauto

theorem insertPeer_sorted {x : Nat} {l : List Nat} (h : l.Pairwise (· < ·)) :
    (insertPeer x l).Pairwise (· < ·) := by
  induction l with
  | nil => simp [insertPeer]
  | cons y ys ih =>
    rcases List.pairwise_cons.1 h with ⟨hy, hys⟩
    by_cases h1 : x < y
    · rw [insertPeer, if_pos h1]
      exact List.pairwise_cons.2 ⟨by
        intro a ha
        rcases List.mem_cons.1 ha with rfl | ha
        · exact h1
        · exact h1.trans (hy a ha), h⟩
    · by_cases h2 : x = y
      · subst h2
        rw [insertPeer, if_neg h1, if_pos rfl]
        exact h
      · rw [insertPeer, if_neg h1, if_neg h2]
        refine List.pairwise_cons.2 ⟨?_, ih hys⟩
        intro a ha
        rcases insertPeer_mem.1 ha with rfl | ha
        · omega
        · exact hy a ha

theorem peersOf_sorted (rows : List Collab) : (peersOf rows).Pairwise (· < ·) := by
  have main : ∀ (rs : List Collab) (acc : List Nat), acc.Pairwise (· < ·) →
      (rs.foldl (fun acc r => insertPeer r.peer_id acc) acc).Pairwise (· < ·) := by
    intro rs
    induction rs with
    | nil => intro acc h; exact h
    | cons r rest ih => intro acc h; exact ih _ (insertPeer_sorted h)
  exact main rows [] (List.Pairwise.nil)

/-- The ordering `rankPeers` establishes: score strictly descending, ties
broken by peer id ascending. -/
def RankRel (a b : PeerRanking) : Prop :=
  b.collaboration_score < a.collaboration_score ∨
    (a.collaboration_score = b.collaboration_score ∧ a.peer_id < b.peer_id)

theorem insertByScore_mem {b x : PeerRanking} {l : List PeerRanking} :
    b ∈ insertByScore x l ↔ b = x ∨ b ∈ l := by
  induction l with
  | nil => simp [insertByScore]
  | cons y ys ih =>
    by_cases h : y.collaboration_score ≤ x.collaboration_score
    · simp [insertByScore, h]
    · simp [insertByScore, h, ih]
      tauto

theorem sortByScore_mem {b : PeerRanking} {l : List PeerRanking} :
    b ∈ sortByScore l ↔ b ∈ l := by
  induction l with
  | nil => simp [sortByScore]
  | cons y ys ih => simp [sortByScore, insertByScore_mem, ih]

theorem insertByScore_pairwise {x : PeerRanking} {l : List PeerRanking}
    (hl : l.Pairwise RankRel)
    (hx : ∀ y ∈ l, x.collaboration_score = y.collaboration_score → x.peer_id < y.peer_id) :
    (insertByScore x l).Pairwise RankRel := by
  induction l with
  | nil => simp [insertByScore]
  | cons y ys ih =>
    rcases List.pairwise_cons.1 hl with ⟨hy, hys⟩
    by_cases h : y.collaboration_score ≤ x.collaboration_score
    · rw [insertByScore, if_pos h]
      refine List.pairwise_cons.2 ⟨?_, hl⟩
      intro z hz
      rcases List.mem_cons.1 hz with rfl | hz
      · rcases lt_or_eq_of_le h with h' | h'
        · exact Or.inl h'
        · exact Or.inr ⟨h'.symm, hx z (List.mem_cons_self _ _) h'.symm⟩
      · rcases hy z hz with h' | ⟨he, hp⟩
        · exact Or.inl (lt_of_lt_of_le h' h)
        · rcases lt_or_eq_of_le (he ▸ h) with h'' | h''
          · exact Or.inl h''
          · exact Or.inr ⟨h''.symm, hx z (List.mem_cons_of_mem _ hz) h''.symm⟩
    · rw [insertByScore, if_neg h]
      refine List.pairwise_cons.2 ⟨?_, ih hys (fun z hz => hx z (List.mem_cons_of_mem _ hz))⟩
      intro z hz
      rcases insertByScore_mem.1 hz with rfl | hz
      · exact Or.inl (lt_of_not_le h)
      · exact hy z hz

theorem sortByScore_pairwise {l : List PeerRanking}
    (h : l.Pairwise fun a b =>
      a.collaboration_score = b.collaboration_score → a.peer_id < b.peer_id) :
    (sortByScore l).Pairwise RankRel := by
  induction l with
  | nil => simp [sortByScore]
  | cons x xs ih =>
    rcases List.pairwise_cons.1 h with ⟨hx, hxs⟩
    exact insertByScore_pairwise (ih hxs) fun y hy => hx y (sortByScore_mem.1 hy)

theorem assignRanks_mem {b : PeerRanking} {k : Nat} {l : List PeerRanking}
    (h : b ∈ assignRanks k l) :
    ∃ c ∈ l, b.peer_id = c.peer_id ∧ b.collaboration_score = c.collaboration_score := by
  induction l generalizing k with
  | nil => simp [assignRanks] at h
  | cons r rs ih =>
    rcases List.mem_cons.1 h with rfl | h
    · exact ⟨r, List.mem_cons_self _ _, rfl, rfl⟩
    · rcases ih h with ⟨c, hc, h1, h2⟩
      exact ⟨c, List.mem_cons_of_mem _ hc, h1, h2⟩

theorem assignRanks_pairwise {k : Nat} {l : List PeerRanking} (h : l.Pairwise RankRel) :
    (assignRanks k l).Pairwise RankRel := by
  induction l generalizing k with
  | nil => simp [assignRanks]
  | cons r rs ih =>
    rcases List.pairwise_cons.1 h with ⟨hr, hrs⟩
    refine List.pairwise_cons.2 ⟨?_, ih hrs⟩
    intro b hb
    rcases assignRanks_mem hb with ⟨c, hc, h1, h2⟩
    rcases hr c hc with h' | ⟨he, hp⟩
    · exact Or.inl (by simpa [h2] using h')
    · exact Or.inr ⟨by simpa [h2] using he, by simpa [h1] using hp⟩

theorem assignRanks_positions (k : Nat) (l : List PeerRanking) :
    (assignRanks k l).map (·.rank_position) = List.range' k l.length := by
  induction l generalizing k with
  | nil => simp [assignRanks]
  | cons r rs ih => simp [assignRanks, List.range'_succ, ih]

theorem assignRanks_length (k : Nat) (l : List PeerRanking) :
    (assignRanks k l).length = l.length := by
  induction l generalizing k with
  | nil => simp [assignRanks]
  | cons r rs ih => simp [assignRanks, ih]

theorem rankPeersPure_pairwise (tbl : List Collab) (e : Nat) (now : ℚ) :
    (rankPeersPure tbl e now).Pairwise RankRel := by
  apply assignRanks_pairwise
  apply sortByScore_pairwise
  rw [List.pairwise_map]
  apply (peersOf_sorted _).imp
  intro a b hab
  intro _
  simpa using hab

theorem rankPeersPure_positions (tbl : List Collab) (e : Nat) (now : ℚ) :
    (rankPeersPure tbl e now).map (·.rank_position) =
      List.range' 1 (rankPeersPure tbl e now).length := by
  show (assignRanks 1 _).map _ = List.range' 1 (assignRanks 1 _).length
  rw [assignRanks_positions, assignRanks_length]

theorem filter_out_insert {pr R : List PeerRankingRow} {e : Nat}
    (hR : ∀ r ∈ R, r.employee_id = e) :
    ((pr.filter fun r => ¬ r.employee_id = e) ++ R).filter (fun r => ¬ r.employee_id = e) =
      pr.filter fun r => ¬ r.employee_id = e := by
  rw [List.filter_append]
  have h1 : (pr.filter fun r => ¬ r.employee_id = e).filter (fun r => ¬ r.employee_id = e) =
      pr.filter fun r => ¬ r.employee_id = e :=
    List.filter_eq_self.mpr fun a ha => (List.mem_filter.1 ha).2
  have h2 : R.filter (fun r => ¬ r.employee_id = e) = [] := by
    refine List.filter_eq_nil_iff.mpr fun a ha => ?_
    simp [hR a ha]
  rw [h1, h2, List.append_nil]

theorem rankPeers_repeat (db : DB) (e : Nat) (now : ℚ) :
    (rankPeers (rankPeers db e now) e now).peer_rankings =
      (rankPeers db e now).peer_rankings := by
  have hcol : (rankPeers db e now).collaborations = db.collaborations := rfl
  simp only [rankPeers, hcol]
  rw [filter_out_insert]
  intro r hr
  rcases List.mem_map.1 hr with ⟨a, _, rfl⟩
  rfl

/-- The weight table as the spec states it: fixed weights chat=1,
meeting=3, task=5, file=2; unknown types default to weight 1. -/
def specWeight : String → ℚ
  | "chat" => 1
  | "meeting" => 3
  | "task" => 5
  | "file" => 2
  | _ => 1

theorem specWeight_eq (t : String) : specWeight t = WEIGHTS t := by
  unfold specWeight WEIGHTS
  split <;> simp_all

theorem foldl_add_map {α : Type} (f g : α → ℚ) (l : List α) (s : ℚ) :
    l.foldl (fun a m => a + f m + g m) s = s + (l.map fun m => f m + g m).sum := by
  induction l generalizing s with
  | nil => simp
  | cons x xs ih =>
    rw [List.foldl_cons, ih, List.map_cons, List.sum_cons]
    ring

theorem calculateCollaborationScore_formula (now : ℚ) (metrics : List CollaborationMetric)
    (h : metrics ≠ []) :
    calculateCollaborationScore now metrics =
      ((metrics.map fun m =>
        m.interaction_count * specWeight m.interaction_type + m.total_minutes / 10).sum) *
        qmax (1/2) (1 - ((now - maxList (metrics.map (·.last_interaction))) / 86400000) / 90) := by
  cases metrics with
  | nil => exact absurd rfl h
  | cons m ms =>
    show ((m :: ms).foldl _ 0) * qmax _ _ = _
    rw [foldl_add_map, zero_add]
    have hw : ((m :: ms).map fun x =>
        x.interaction_count * WEIGHTS x.interaction_type + x.total_minutes / 10) =
        (m :: ms).map fun x =>
          x.interaction_count * specWeight x.interaction_type + x.total_minutes / 10 := by
      refine List.map_congr_left fun x _ => ?_
      rw [specWeight_eq]
    rw [hw]
    have hm : ms.foldl (fun acc x => qmax acc x.last_interaction) m.last_interaction =
        maxList ((m :: ms).map (·.last_interaction)) := by
      show _ = (ms.map (·.last_interaction)).foldl qmax m.last_interaction
      rw [List.foldl_map]
    rw [hm]

theorem rankPeersPure_scores (tbl : List Collab) (e : Nat) (now : ℚ) :
    ∀ r ∈ rankPeersPure tbl e now,
      r.collaboration_score = calculateCollaborationScore now
        (metricsFor (tbl.filter fun x => x.employee_id = e) r.peer_id) := by
  intro r hr
  rcases assignRanks_mem hr with ⟨c, hc, hpeer, hscore⟩
  rcases List.mem_map.1 (sortByScore_mem.1 hc) with ⟨p, _, rfl⟩
  rw [hscore, hpeer]

/-- The spec's ranking scenario, with `now` 100 days after the epoch:
employee 1 (A) has `{chat: count 10, last 5 days ago}` with employee 2 (B)
and `{meeting: count 2, 60 minutes, last 100 days ago}` with employee 3
(C). -/
def scenarioNow : ℚ := 100 * 86400000

/-- B's aggregated metric in the scenario. -/
def metricB : CollaborationMetric := ⟨2, "chat", 10, 0, 95 * 86400000⟩

/-- C's aggregated metric in the scenario. -/
def metricC : CollaborationMetric := ⟨3, "meeting", 2, 60, 0⟩

/-- The scenario's `collaborations` rows for employee 1. -/
def scenarioRows : List Collab :=
  [⟨1, 2, "chat", 10, 0, 95 * 86400000⟩, ⟨1, 3, "meeting", 2, 60, 0⟩]

/-- C2: every score stored by `rankPeers` is `calculateCollaborationScore`
of that peer's aggregated metrics, and for every nonempty metric set the
collaboration score equals the sum over interaction types of
`count * weight(type) + minutes / 10`
(weights chat=1, meeting=3, task=5, file=2, unknown=1), multiplied by
`max(0.5, 1 - days_since_most_recent_interaction / 90)` where the days are
measured from the single most recent interaction across all of the peer's
types; in the spec's scenario B scores 85/9 (between 9 and 10, "about
10"), C scores exactly 6, and `rankPeers` ranks B above C. -/
theorem collaborationScore_spec_and_scenario :
    (∀ (tbl : List Collab) (e : Nat) (now : ℚ), ∀ r ∈ rankPeersPure tbl e now,
      r.collaboration_score = calculateCollaborationScore now
        (metricsFor (tbl.filter fun x => x.employee_id = e) r.peer_id)) ∧
    (∀ (now : ℚ) (metrics : List CollaborationMetric), metrics ≠ [] →
      calculateCollaborationScore now metrics =
        ((metrics.map fun m =>
          m.interaction_count * specWeight m.interaction_type + m.total_minutes / 10).sum) *
          qmax (1/2) (1 - ((now - maxList (metrics.map (·.last_interaction))) / 86400000) / 90)) ∧
    calculateCollaborationScore scenarioNow [metricB] = 85/9 ∧
    (9 : ℚ) < 85/9 ∧ (85 : ℚ)/9 < 10 ∧
    calculateCollaborationScore scenarioNow [metricC] = 6 ∧
    (rankPeersPure scenarioRows 1 scenarioNow).map (fun r => (r.peer_id, r.rank_position)) =
      [(2, 1), (3, 2)] := by
  refine ⟨rankPeersPure_scores, calculateCollaborationScore_formula, ?_, ?_, ?_, ?_, ?_⟩ <;>
    with_unfolding_all decide

/-- C3: the ranking list computed by `rankPeers` is sorted by collaboration
score descending with ties broken by peer id ascending (`RankRel`), its
`rank_position` column is the dense sequence 1..N, and recomputing the
rankings on unchanged interaction data reproduces the stored `peer_rankings`
table exactly (the computation is a pure function of the data — no
randomness). -/
theorem rankPeers_sorted_dense_deterministic (db : DB) (e : Nat) (now : ℚ) :
    (rankPeersPure db.collaborations e now).Pairwise RankRel ∧
    (rankPeersPure db.collaborations e now).map (·.rank_position) =
      List.range' 1 (rankPeersPure db.collaborations e now).length ∧
    (rankPeers (rankPeers db e now) e now).peer_rankings =
      (rankPeers db e now).peer_rankings :=
  ⟨rankPeersPure_pairwise _ _ _, rankPeersPure_positions _ _ _, rankPeers_repeat _ _ _⟩

/-! ## Frame and effect lemmas for the assignment engine -/

/-- Everything the per-employee assignment loop reads but never writes:
employees, collaborations, peer rankings, cycles and responses. -/
def EqCtx (a b : DB) : Prop :=
  a.employees = b.employees ∧ a.collaborations = b.collaborations ∧
    a.peer_rankings = b.peer_rankings ∧ a.feedback_cycles = b.feedback_cycles ∧
    a.feedback_responses = b.feedback_responses

theorem eqCtx_refl (a : DB) : EqCtx a a := ⟨rfl, rfl, rfl, rfl, rfl⟩

theorem eqCtx_trans {a b c : DB} (h1 : EqCtx a b) (h2 : EqCtx b c) : EqCtx a c :=
  ⟨h1.1.trans h2.1, h1.2.1.trans h2.2.1, h1.2.2.1.trans h2.2.2.1,
    h1.2.2.2.1.trans h2.2.2.2.1, h1.2.2.2.2.trans h2.2.2.2.2⟩

/-- The requests of `a` all survive into `b` (the loop only appends). -/
def ReqSub (a b : DB) : Prop := ∀ q ∈ a.feedback_requests, q ∈ b.feedback_requests

/-- Context preserved and requests only appended. -/
def DbExt (a b : DB) : Prop := EqCtx a b ∧ ReqSub a b

theorem dbExt_refl (a : DB) : DbExt a a := ⟨eqCtx_refl a, fun _ h => h⟩

theorem dbExt_trans {a b c : DB} (h1 : DbExt a b) (h2 : DbExt b c) : DbExt a c :=
  ⟨eqCtx_trans h1.1 h2.1, fun q hq => h2.2 q (h1.2 q hq)⟩

/-- A `(requester, provider, cycle)` key is present in `feedback_requests`. -/
def hasReq (db : DB) (r p : Nat) (c : String) : Prop :=
  ∃ q ∈ db.feedback_requests, q.requester_id = r ∧ q.provider_id = p ∧ q.cycle_id = c

theorem checkExistingAssignment_iff {db : DB} {r p : Nat} {c : String} :
    checkExistingAssignment db r p c = true ↔ hasReq db r p c := by
  simp [checkExistingAssignment, hasReq, List.any_eq_true]

theorem hasReq_mono {a b : DB} {r p : Nat} {c : String} (h : ReqSub a b)
    (hr : hasReq a r p c) : hasReq b r p c := by
  rcases hr with ⟨q, hq, h1⟩
  exact ⟨q, h q hq, h1⟩

theorem createFeedbackRequest_ext (db : DB) (r p : Nat) (c ty : String) (dd : ℚ) :
    DbExt db (createFeedbackRequest db r p c ty dd).1 := by
  refine ⟨⟨rfl, rfl, rfl, rfl, rfl⟩, fun q hq => ?_⟩
  simp [createFeedbackRequest]
  exact Or.inl hq

theorem createFeedbackRequest_hasReq (db : DB) (r p : Nat) (c ty : String) (dd : ℚ) :
    hasReq (createFeedbackRequest db r p c ty dd).1 r p c := by
  refine ⟨⟨db.next_request_id, r, p, c, ty, "pending", dd, none⟩, ?_, rfl, rfl, rfl⟩
  simp [createFeedbackRequest]

theorem createRequestsFor_ext (ps : List Nat) (r : Nat) (c ty : String) (dd : ℚ)
    (db : DB) (acc : List FeedbackRequest) :
    DbExt db (createRequestsFor ps r c ty dd db acc).1 := by
  induction ps generalizing db acc with
  | nil => exact dbExt_refl db
  | cons p rest ih =>
    by_cases h : checkExistingAssignment db r p c
    · rw [createRequestsFor, if_pos h]
      exact ih db acc
    · rw [createRequestsFor, if_neg h]
      exact dbExt_trans (createFeedbackRequest_ext db r p c ty dd) (ih _ _)

theorem createRequestsFor_post (ps : List Nat) (r : Nat) (c ty : String) (dd : ℚ)
    (db : DB) (acc : List FeedbackRequest) :
    ∀ p ∈ ps, hasReq (createRequestsFor ps r c ty dd db acc).1 r p c := by
  induction ps generalizing db acc with
  | nil => intro p hp; simp at hp
  | cons p0 rest ih =>
    intro p hp
    by_cases h : checkExistingAssignment db r p0 c
    · rw [createRequestsFor, if_pos h]
      rcases List.mem_cons.1 hp with rfl | hp
      · exact hasReq_mono (createRequestsFor_ext rest r c ty dd db acc).2
          (checkExistingAssignment_iff.1 h)
      · exact ih db acc p hp
    · rw [createRequestsFor, if_neg h]
      rcases List.mem_cons.1 hp with rfl | hp
      · exact hasReq_mono (createRequestsFor_ext rest r c ty dd _ _).2
          (createFeedbackRequest_hasReq db r p c ty dd)
      · exact ih _ _ p hp

theorem eqCtx_symm {a b : DB} (h : EqCtx a b) : EqCtx b a :=
  ⟨h.1.symm, h.2.1.symm, h.2.2.1.symm, h.2.2.2.1.symm, h.2.2.2.2.symm⟩

theorem selectedPeerIds_congr {a b : DB} (h : EqCtx a b) (e n : Nat) (now : ℚ) :
    selectedPeerIds a e n now = selectedPeerIds b e n now := by
  unfold selectedPeerIds filterRecentFeedback getRankedPeers
  rw [h.1, h.2.2.1, h.2.2.2.2]

theorem reportIds_congr {a b : DB} (h : a.employees = b.employees) (e : Nat) :
    reportIds a e = reportIds b e := by
  unfold reportIds
  rw [h]

theorem managerStep_ext (e : Employee) (cy : String) (dd : ℚ) (s : DB × List FeedbackRequest) :
    DbExt s.1 (managerStep e cy dd s).1 := by
  unfold managerStep
  split
  · exact dbExt_refl s.1
  · rename_i m _
    by_cases h : checkExistingAssignment s.1 e.id m cy
    · rw [if_pos h]
      exact dbExt_refl s.1
    · rw [if_neg h]
      exact createFeedbackRequest_ext s.1 e.id m cy "manager" dd

theorem managerStep_hasReq (e : Employee) (cy : String) (dd : ℚ)
    (s : DB × List FeedbackRequest) (m : Nat) (hm : e.manager_id = some m) :
    hasReq (managerStep e cy dd s).1 e.id m cy := by
  unfold managerStep
  split
  · rename_i heq
    rw [hm] at heq
    exact Option.noConfusion heq
  · rename_i m' heq
    rw [hm] at heq
    cases Option.some.inj heq
    by_cases h : checkExistingAssignment s.1 e.id m cy
    · rw [if_pos h]
      exact checkExistingAssignment_iff.1 h
    · rw [if_neg h]
      exact createFeedbackRequest_hasReq s.1 e.id m cy "manager" dd

theorem reportsStep_ext (e : Employee) (cy : String) (dd : ℚ) (s : DB × List FeedbackRequest) :
    DbExt s.1 (reportsStep e cy dd s).1 := by
  unfold reportsStep
  by_cases h : e.is_manager
  · rw [if_pos h]
    exact createRequestsFor_ext _ _ _ _ _ _ _
  · rw [if_neg h]
    exact dbExt_refl s.1

theorem reportsStep_post (e : Employee) (cy : String) (dd : ℚ) (s : DB × List FeedbackRequest)
    (h : e.is_manager = true) :
    ∀ p ∈ reportIds s.1 e.id, hasReq (reportsStep e cy dd s).1 e.id p cy := by
  unfold reportsStep
  rw [if_pos h]
  exact createRequestsFor_post _ _ _ _ _ _ _

/-- The per-employee saturation property: every provider the loop would
select for `e` (reading candidate data from `dbSel`) already has a request
row in `dbReq`. -/
def SatE (cy : String) (n : Nat) (i360 : Bool) (now : ℚ) (dbSel dbReq : DB)
    (e : Employee) : Prop :=
  (∀ p ∈ selectedPeerIds dbSel e.id n now, hasReq dbReq e.id p cy) ∧
    (i360 = true →
      (∀ m, e.manager_id = some m → hasReq dbReq e.id m cy) ∧
        (e.is_manager = true → ∀ p ∈ reportIds dbSel e.id, hasReq dbReq e.id p cy))

theorem satE_mono_req {cy n i360 now} {dbSel a b : DB} {e : Employee} (h : ReqSub a b)
    (hs : SatE cy n i360 now dbSel a e) : SatE cy n i360 now dbSel b e := by
  refine ⟨fun p hp => hasReq_mono h (hs.1 p hp), fun h360 => ?_⟩
  rcases hs.2 h360 with ⟨hm, hr⟩
  exact ⟨fun m hm' => hasReq_mono h (hm m hm'),
    fun hmgr p hp => hasReq_mono h (hr hmgr p hp)⟩

theorem satE_change_sel {cy n i360 now} {a b dbReq : DB} {e : Employee} (h : EqCtx a b)
    (hs : SatE cy n i360 now a dbReq e) : SatE cy n i360 now b dbReq e := by
  refine ⟨fun p hp => hs.1 p ?_, fun h360 => ?_⟩
  · rw [selectedPeerIds_congr h]
    exact hp
  · rcases hs.2 h360 with ⟨hm, hr⟩
    refine ⟨hm, fun hmgr p hp => hr hmgr p ?_⟩
    rw [reportIds_congr h.1]
    exact hp

theorem assignEmployee_ext (e : Employee) (cy : String) (dd : ℚ) (n : Nat) (i360 : Bool)
    (now : ℚ) (db : DB) (acc : List FeedbackRequest) :
    DbExt db (assignEmployee e cy dd n i360 now db acc).1 := by
  unfold assignEmployee
  by_cases h360 : i360
  · rw [if_pos h360]
    exact dbExt_trans (createRequestsFor_ext _ _ _ _ _ _ _)
      (dbExt_trans (managerStep_ext _ _ _ _) (reportsStep_ext _ _ _ _))
  · rw [if_neg h360]
    exact createRequestsFor_ext _ _ _ _ _ _ _

theorem assignEmployee_post (e : Employee) (cy : String) (dd : ℚ) (n : Nat) (i360 : Bool)
    (now : ℚ) (db : DB) (acc : List FeedbackRequest) :
    SatE cy n i360 now db (assignEmployee e cy dd n i360 now db acc).1 e := by
  unfold assignEmployee
  by_cases h360 : i360
  · rw [if_pos h360]
    constructor
    · intro p hp
      refine hasReq_mono (dbExt_trans (managerStep_ext _ _ _ _) (reportsStep_ext _ _ _ _)).2 ?_
      exact createRequestsFor_post _ _ _ _ _ _ _ p hp
    · intro _
      constructor
      · intro m hm
        exact hasReq_mono (reportsStep_ext _ _ _ _).2 (managerStep_hasReq _ _ _ _ m hm)
      · intro hmgr p hp
        refine reportsStep_post _ _ _ _ hmgr p ?_
        rw [reportIds_congr (dbExt_trans (createRequestsFor_ext _ _ _ _ _ db acc)
          (managerStep_ext _ _ _ _)).1.1.symm]
        exact hp
  · rw [if_neg h360]
    refine ⟨createRequestsFor_post _ _ _ _ _ _ _, fun h => absurd h (by simpa using h360)⟩

theorem createRequestsFor_noop (ps : List Nat) (r : Nat) (c ty : String) (dd : ℚ)
    (db : DB) (acc : List FeedbackRequest) (h : ∀ p ∈ ps, hasReq db r p c) :
    createRequestsFor ps r c ty dd db acc = (db, acc) := by
  induction ps with
  | nil => rfl
  | cons p rest ih =>
    rw [createRequestsFor,
      if_pos (checkExistingAssignment_iff.2 (h p (List.mem_cons_self _ _)))]
    exact ih fun q hq => h q (List.mem_cons_of_mem _ hq)

theorem managerStep_noop (e : Employee) (cy : String) (dd : ℚ)
    (s : DB × List FeedbackRequest)
    (h : ∀ m, e.manager_id = some m → hasReq s.1 e.id m cy) :
    managerStep e cy dd s = s := by
  unfold managerStep
  split
  · rfl
  · rename_i m heq
    rw [if_pos (checkExistingAssignment_iff.2 (h m heq))]

theorem reportsStep_noop (e : Employee) (cy : String) (dd : ℚ)
    (s : DB × List FeedbackRequest)
    (h : e.is_manager = true → ∀ p ∈ reportIds s.1 e.id, hasReq s.1 e.id p cy) :
    reportsStep e cy dd s = s := by
  unfold reportsStep
  by_cases hm : e.is_manager
  · rw [if_pos hm]
    exact createRequestsFor_noop _ _ _ _ _ _ _ (h hm)
  · rw [if_neg hm]

theorem assignEmployee_noop (e : Employee) (cy : String) (dd : ℚ) (n : Nat) (i360 : Bool)
    (now : ℚ) (db : DB) (acc : List FeedbackRequest)
    (h : SatE cy n i360 now db db e) :
    assignEmployee e cy dd n i360 now db acc = (db, acc) := by
  unfold assignEmployee
  rw [createRequestsFor_noop _ _ _ _ _ _ _ h.1]
  by_cases h360 : i360
  · rw [if_pos h360]
    rw [managerStep_noop e cy dd (db, acc) (h.2 h360).1]
    exact reportsStep_noop e cy dd (db, acc) (h.2 h360).2
  · rw [if_neg h360]

theorem assignLoop_ext (cy : String) (dd : ℚ) (n : Nat) (i360 : Bool) (now : ℚ) :
    ∀ (es : List Employee) (db : DB) (acc : List FeedbackRequest),
      DbExt db (assignLoop es cy dd n i360 now db acc).1 := by
  intro es
  induction es with
  | nil => intro db acc; exact dbExt_refl db
  | cons e rest ih =>
    intro db acc
    rw [assignLoop]
    exact dbExt_trans (assignEmployee_ext e cy dd n i360 now db acc) (ih _ _)

theorem assignLoop_post (cy : String) (dd : ℚ) (n : Nat) (i360 : Bool) (now : ℚ) :
    ∀ (es : List Employee) (db : DB) (acc : List FeedbackRequest),
      ∀ e ∈ es, SatE cy n i360 now db (assignLoop es cy dd n i360 now db acc).1 e := by
  intro es
  induction es with
  | nil => intro db acc e he; simp at he
  | cons e0 rest ih =>
    intro db acc e he
    rw [assignLoop]
    rcases List.mem_cons.1 he with rfl | he
    · refine satE_mono_req (assignLoop_ext cy dd n i360 now rest _ _).2 ?_
      exact assignEmployee_post e cy dd n i360 now db acc
    · have hstep := assignEmployee_ext e0 cy dd n i360 now db acc
      exact satE_change_sel (eqCtx_symm hstep.1) (ih _ _ e he)

theorem assignLoop_noop (cy : String) (dd : ℚ) (n : Nat) (i360 : Bool) (now : ℚ) :
    ∀ (es : List Employee) (db : DB) (acc : List FeedbackRequest),
      (∀ e ∈ es, SatE cy n i360 now db db e) →
      assignLoop es cy dd n i360 now db acc = (db, acc) := by
  intro es
  induction es with
  | nil => intro db acc _; rfl
  | cons e0 rest ih =>
    intro db acc h
    rw [assignLoop]
    rw [assignEmployee_noop e0 cy dd n i360 now db acc (h e0 (List.mem_cons_self _ _))]
    exact ih db acc fun e he => h e (List.mem_cons_of_mem _ he)

/-! ## Effect of `rankAllPeers` on the database -/

/-- All fields except `peer_rankings` agree: `rankPeers` and `rankAllPeers`
write nothing else. -/
def EqExceptRankings (a b : DB) : Prop :=
  a.employees = b.employees ∧ a.collaborations = b.collaborations ∧
    a.feedback_cycles = b.feedback_cycles ∧ a.feedback_requests = b.feedback_requests ∧
    a.feedback_responses = b.feedback_responses ∧ a.next_request_id = b.next_request_id

theorem eqExceptRankings_refl (a : DB) : EqExceptRankings a a := ⟨rfl, rfl, rfl, rfl, rfl, rfl⟩

theorem eqExceptRankings_trans {a b c : DB} (h1 : EqExceptRankings a b)
    (h2 : EqExceptRankings b c) : EqExceptRankings a c :=
  ⟨h1.1.trans h2.1, h1.2.1.trans h2.2.1, h1.2.2.1.trans h2.2.2.1,
    h1.2.2.2.1.trans h2.2.2.2.1, h1.2.2.2.2.1.trans h2.2.2.2.2.1,
    h1.2.2.2.2.2.trans h2.2.2.2.2.2⟩

theorem rankPeers_frame (db : DB) (e : Nat) (now : ℚ) :
    EqExceptRankings db (rankPeers db e now) := ⟨rfl, rfl, rfl, rfl, rfl, rfl⟩

theorem foldRank_frame (now : ℚ) (E : List Employee) (s : DB) :
    EqExceptRankings s (E.foldl (fun t emp => rankPeers t emp.id now) s) := by
  induction E generalizing s with
  | nil => exact eqExceptRankings_refl s
  | cons e rest ih =>
    exact eqExceptRankings_trans (rankPeers_frame s e.id now) (ih _)

theorem rankAllPeers_frame (db : DB) (now : ℚ) :
    EqExceptRankings db (rankAllPeers db now) := foldRank_frame now db.employees db

/-- The `peer_rankings` rows `rankPeers` writes for one employee. -/
def newRankRows (c : List Collab) (now : ℚ) (e : Nat) : List PeerRankingRow :=
  (rankPeersPure c e now).map fun r => ⟨e, r.peer_id, r.collaboration_score, r.rank_position⟩

theorem newRankRows_emp {c : List Collab} {now : ℚ} {e : Nat} {r : PeerRankingRow}
    (h : r ∈ newRankRows c now e) : r.employee_id = e := by
  rcases List.mem_map.1 h with ⟨a, _, rfl⟩
  rfl

/-- The effect of a sequence of `rankPeers` calls on the `peer_rankings`
table, as a function of the collaboration data. -/
def rankTable (c : List Collab) (now : ℚ) : List PeerRankingRow → List Nat → List PeerRankingRow
  | pr, [] => pr
  | pr, e :: es =>
    rankTable c now ((pr.filter fun r => ¬ r.employee_id = e) ++ newRankRows c now e) es

theorem rankPeers_rankings (db : DB) (e : Nat) (now : ℚ) :
    (rankPeers db e now).peer_rankings =
      (db.peer_rankings.filter fun r => ¬ r.employee_id = e) ++
        newRankRows db.collaborations now e := rfl

theorem foldRank_rankings (now : ℚ) (c : List Collab) (E : List Employee) (s : DB)
    (hs : s.collaborations = c) :
    (E.foldl (fun t emp => rankPeers t emp.id now) s).peer_rankings =
      rankTable c now s.peer_rankings (E.map (·.id)) := by
  induction E generalizing s with
  | nil => rfl
  | cons e rest ih =>
    rw [List.foldl_cons, List.map_cons, rankTable]
    rw [ih (rankPeers s e.id now) ((rankPeers_frame s e.id now).2.1.symm.trans hs)]
    rw [rankPeers_rankings, hs]

theorem rankAllPeers_rankings (db : DB) (now : ℚ) :
    (rankAllPeers db now).peer_rankings =
      rankTable db.collaborations now db.peer_rankings (db.employees.map (·.id)) :=
  foldRank_rankings now db.collaborations db.employees db rfl

/-- The rows of the final segment `rankTable` appends: for each employee in
the list, its fresh rows minus those overwritten by a later employee with
the same id. -/
def tailRank (c : List Collab) (now : ℚ) : List Nat → List PeerRankingRow
  | [] => []
  | e :: es =>
    ((newRankRows c now e).filter fun r => ¬ r.employee_id ∈ es) ++ tailRank c now es

theorem tailRank_emp {c : List Collab} {now : ℚ} {E : List Nat} {r : PeerRankingRow}
    (h : r ∈ tailRank c now E) : r.employee_id ∈ E := by
  induction E with
  | nil => simp [tailRank] at h
  | cons e es ih =>
    rw [tailRank] at h
    rcases List.mem_append.1 h with h | h
    · exact List.mem_cons.2 (Or.inl (newRankRows_emp (List.mem_filter.1 h).1))
    · exact List.mem_cons.2 (Or.inr (ih h))

theorem rankTable_normal (c : List Collab) (now : ℚ) (E : List Nat) :
    ∀ pr, rankTable c now pr E =
      (pr.filter fun r => ¬ r.employee_id ∈ E) ++ tailRank c now E := by
  induction E with
  | nil =>
    intro pr
    rw [rankTable, tailRank, List.append_nil]
    symm
    refine List.filter_eq_self.mpr fun a _ => ?_
    simp
  | cons e es ih =>
    intro pr
    rw [rankTable, tailRank, ih, List.filter_append, List.append_assoc]
    congr 1
    rw [List.filter_filter]
    refine List.filter_congr fun r _ => ?_
    simp [List.mem_cons, not_or, Bool.and_comm]

theorem rankTable_idem (c : List Collab) (now : ℚ) (E : List Nat) (pr : List PeerRankingRow) :
    rankTable c now (rankTable c now pr E) E = rankTable c now pr E := by
  rw [rankTable_normal, rankTable_normal, List.filter_append]
  have h1 : ((pr.filter fun r => ¬ r.employee_id ∈ E).filter fun r => ¬ r.employee_id ∈ E) =
      pr.filter fun r => ¬ r.employee_id ∈ E :=
    List.filter_eq_self.mpr fun a ha => (List.mem_filter.1 ha).2
  have h2 : ((tailRank c now E).filter fun r => ¬ r.employee_id ∈ E) = [] := by
    refine List.filter_eq_nil_iff.mpr fun a ha => ?_
    simp [tailRank_emp ha]
  rw [h1, h2, List.append_nil]

theorem getCycle_congr {a b : DB} (h : a.feedback_cycles = b.feedback_cycles) (cid : String) :
    getCycle a cid = getCycle b cid := by
  unfold getCycle
  rw [h]

theorem assignFeedbackRequests_eq_of_found (n : Nat) (i360 : Bool) {db : DB} {cid : String}
    {now : ℚ} {cyc : FeedbackCycle} (h : getCycle (rankAllPeers db now) cid = some cyc) :
    assignFeedbackRequests db cid n i360 now =
      ((assignLoop (rankAllPeers db now).employees cid cyc.end_date n i360 now
        (rankAllPeers db now) []).1,
       some (assignLoop (rankAllPeers db now).employees cid cyc.end_date n i360 now
        (rankAllPeers db now) []).2) := by
  unfold assignFeedbackRequests
  simp only [h]

theorem assignFeedbackRequests_eq_of_missing {db : DB} {cid : String} {n : Nat} {i360 : Bool}
    {now : ℚ} (h : getCycle (rankAllPeers db now) cid = none) :
    assignFeedbackRequests db cid n i360 now = (rankAllPeers db now, none) := by
  unfold assignFeedbackRequests
  simp only [h]

theorem rerun_noop_general (cid : String) (dd : ℚ) (n : Nat) (i360 : Bool) (now : ℚ)
    (A B s1 : DB) (hPost : ∀ e ∈ A.employees, SatE cid n i360 now A s1 e)
    (hCtx : EqCtx A B) (hBreq : B.feedback_requests = s1.feedback_requests) :
    assignLoop B.employees cid dd n i360 now B [] = (B, []) := by
  apply assignLoop_noop
  intro e he
  have he' : e ∈ A.employees := by
    rw [hCtx.1]
    exact he
  refine satE_mono_req (fun q hq => ?_) (satE_change_sel hCtx (hPost e he'))
  rw [hBreq]
  exact hq

/-- C1: running `assignFeedbackRequests` a second time for the same cycle
and configuration, with the clock and all other inputs held fixed, leaves
the `feedback_requests` table exactly as the first run left it and creates
zero additional requests (the returned assignment list of the second run
is empty): every creation path is gated by the
`(requester_id, provider_id, cycle_id)` existence check. -/
theorem assignFeedbackRequests_idempotent (db : DB) (cid : String) (n : Nat) (i360 : Bool)
    (now : ℚ) (as1 : List FeedbackRequest)
    (h : (assignFeedbackRequests db cid n i360 now).2 = some as1) :
    (assignFeedbackRequests (assignFeedbackRequests db cid n i360 now).1 cid n i360
        now).1.feedback_requests =
      (assignFeedbackRequests db cid n i360 now).1.feedback_requests ∧
    (assignFeedbackRequests (assignFeedbackRequests db cid n i360 now).1 cid n i360 now).2 =
      some [] := by
  cases hc : getCycle (rankAllPeers db now) cid with
  | none =>
    rw [assignFeedbackRequests_eq_of_missing hc] at h
    exact Option.noConfusion h
  | some cyc =>
    have hrun1 := assignFeedbackRequests_eq_of_found n i360 hc
    have hAfr := rankAllPeers_frame db now
    have hApr := rankAllPeers_rankings db now
    rw [hrun1]
    generalize hS : assignLoop (rankAllPeers db now).employees cid cyc.end_date n i360 now
      (rankAllPeers db now) [] = S at *
    generalize hA : rankAllPeers db now = A at *
    have hExt : DbExt A S.1 := by
      rw [← hS]
      exact assignLoop_ext cid cyc.end_date n i360 now A.employees A []
    have hPost : ∀ e ∈ A.employees, SatE cid n i360 now A S.1 e := by
      rw [← hS]
      exact assignLoop_post cid cyc.end_date n i360 now A.employees A []
    have hBfr := rankAllPeers_frame S.1 now
    have hBpr := rankAllPeers_rankings S.1 now
    have hcolS : S.1.collaborations = db.collaborations :=
      (hAfr.2.1.trans hExt.1.2.1).symm
    have hempS : S.1.employees = db.employees := (hAfr.1.trans hExt.1.1).symm
    have hprS : S.1.peer_rankings =
        rankTable db.collaborations now db.peer_rankings (db.employees.map (·.id)) :=
      hExt.1.2.2.1.symm.trans hApr
    generalize hB : rankAllPeers S.1 now = B at hBfr hBpr
    have hprB : B.peer_rankings = A.peer_rankings := by
      rw [hBpr, hcolS, hempS, hprS, rankTable_idem, ← hApr]
    have hCtx : EqCtx A B :=
      ⟨hExt.1.1.trans hBfr.1, hExt.1.2.1.trans hBfr.2.1, hprB.symm,
        hExt.1.2.2.2.1.trans hBfr.2.2.1, hExt.1.2.2.2.2.trans hBfr.2.2.2.2.1⟩
    have hBreq : B.feedback_requests = S.1.feedback_requests := hBfr.2.2.2.1.symm
    have hcycB : getCycle B cid = some cyc := by
      rw [← getCycle_congr (hExt.1.2.2.2.1.trans hBfr.2.2.1) cid]
      exact hc
    have hnoop : assignLoop B.employees cid cyc.end_date n i360 now B [] = (B, []) :=
      rerun_noop_general cid cyc.end_date n i360 now A B S.1 hPost hCtx hBreq
    have hrun2 : assignFeedbackRequests S.1 cid n i360 now = (B, some []) := by
      have h0 : getCycle (rankAllPeers S.1 now) cid = some cyc := by
        rw [hB]
        exact hcycB
      have h1 := assignFeedbackRequests_eq_of_found n i360 h0
      rw [hB, hnoop] at h1
      exact h1
    constructor
    · show (assignFeedbackRequests S.1 cid n i360 now).1.feedback_requests =
        S.1.feedback_requests
      rw [hrun2]
      exact hBreq
    · show (assignFeedbackRequests S.1 cid n i360 now).2 = some []
      rw [hrun2]

/-- Concrete database for the idempotence witness: two employees, one
recorded chat interaction between them, one active cycle. -/
def dbC1w : DB :=
  recordInteraction ⟨[⟨1, none, false⟩, ⟨2, none, false⟩], [], [],
    [⟨"c1", 99, "active"⟩], [], [], 1⟩ 1 2 "chat" 5 0 0

/-- Witness for C1 at a concrete database: the first run creates the two
peer requests, the second run creates none and leaves the table unchanged. -/
theorem assignFeedbackRequests_idempotent_witness :
    (assignFeedbackRequests (assignFeedbackRequests dbC1w "c1" 2 true 0).1 "c1" 2 true
        0).1.feedback_requests =
      (assignFeedbackRequests dbC1w "c1" 2 true 0).1.feedback_requests ∧
    (assignFeedbackRequests (assignFeedbackRequests dbC1w "c1" 2 true 0).1 "c1" 2 true 0).2 =
      some [] :=
  assignFeedbackRequests_idempotent dbC1w "c1" 2 true 0
    [⟨1, 1, 2, "c1", "peer", "pending", 99, none⟩, ⟨2, 2, 1, "c1", "peer", "pending", 99, none⟩]
    (by with_unfolding_all decide)

/-- Concrete database for the C4 counterexample: a stale `peer_rankings`
row for employee 1 (about peer 2) with an empty `collaborations` table. -/
def dbC4 : DB := ⟨[⟨1, none, false⟩], [], [⟨1, 2, 5, 1⟩], [⟨"c1", 99, "active"⟩], [], [], 1⟩

/-- C4 counterexample: `assignFeedbackRequests` does modify the stored peer
rankings — on `dbC4` the stale ranking row is deleted by the `rankAllPeers`
call at the start of the procedure, so the `peer_rankings` state after the
call differs from the state before it, contrary to the claim. -/
theorem assignFeedbackRequests_touches_rankings_cex :
    (assignFeedbackRequests dbC4 "c1" 2 false 0).1.peer_rankings ≠ dbC4.peer_rankings := by
  with_unfolding_all decide

/-- C4 (amended): `assignFeedbackRequests` begins by invoking
`rankAllPeers`, so after every invocation the `peer_rankings` table equals
the fresh recomputation from the current `collaborations` table (the
`rankTable` normal form) — not the pre-call state; the per-employee
assignment loop itself performs no further recomputation. -/
theorem assignFeedbackRequests_rankings_recomputed (db : DB) (cid : String) (n : Nat)
    (i360 : Bool) (now : ℚ) :
    (assignFeedbackRequests db cid n i360 now).1.peer_rankings =
      (rankAllPeers db now).peer_rankings ∧
    (rankAllPeers db now).peer_rankings =
      rankTable db.collaborations now db.peer_rankings (db.employees.map (·.id)) := by
  refine ⟨?_, rankAllPeers_rankings db now⟩
  cases hc : getCycle (rankAllPeers db now) cid with
  | none => rw [assignFeedbackRequests_eq_of_missing hc]
  | some cyc =>
    rw [assignFeedbackRequests_eq_of_found n i360 hc]
    exact (assignLoop_ext cid cyc.end_date n i360 now (rankAllPeers db now).employees
      (rankAllPeers db now) []).1.2.2.1.symm

/-! ## Uniqueness of `(requester_id, provider_id, cycle_id)` -/

/-- Two request rows carry the same `(requester, provider, cycle)` key. -/
def sameKey (a b : FeedbackRequest) : Bool :=
  a.requester_id = b.requester_id ∧ a.provider_id = b.provider_id ∧ a.cycle_id = b.cycle_id

/-- The uniqueness invariant of the spec, decidably: no two rows of the
list share a `(requester, provider, cycle)` key. -/
def uniqueKeys : List FeedbackRequest → Bool
  | [] => true
  | q :: qs => (!(qs.any fun r => sameKey q r)) && uniqueKeys qs

theorem uniqueKeys_iff_pairwise {l : List FeedbackRequest} :
    uniqueKeys l = true ↔ l.Pairwise fun a b => sameKey a b = false := by
  induction l with
  | nil => simp [uniqueKeys]
  | cons q qs ih =>
    simp [uniqueKeys, ih, List.any_eq_true]

theorem createFeedbackRequest_unique {db : DB} {r p : Nat} {c ty : String} {dd : ℚ}
    (hU : uniqueKeys db.feedback_requests = true) (hno : ¬ hasReq db r p c) :
    uniqueKeys (createFeedbackRequest db r p c ty dd).1.feedback_requests = true := by
  rw [uniqueKeys_iff_pairwise]
  show (db.feedback_requests ++ [_]).Pairwise _
  rw [List.pairwise_append]
  refine ⟨uniqueKeys_iff_pairwise.1 hU, List.pairwise_singleton _ _, ?_⟩
  intro a ha b hb
  rcases List.mem_singleton.1 hb with rfl
  by_contra hkey
  have hkey' : sameKey a ⟨db.next_request_id, r, p, c, ty, "pending", dd, none⟩ = true := by
    cases hsk : sameKey a _
    · exact absurd hsk hkey
    · rfl
  have : a.requester_id = r ∧ a.provider_id = p ∧ a.cycle_id = c := by
    simpa [sameKey] using hkey'
  exact hno ⟨a, ha, this⟩

theorem createRequestsFor_unique (ps : List Nat) (r : Nat) (c ty : String) (dd : ℚ) :
    ∀ (db : DB) (acc : List FeedbackRequest), uniqueKeys db.feedback_requests = true →
      uniqueKeys (createRequestsFor ps r c ty dd db acc).1.feedback_requests = true := by
  induction ps with
  | nil => intro db acc h; exact h
  | cons p rest ih =>
    intro db acc h
    by_cases hchk : checkExistingAssignment db r p c
    · rw [createRequestsFor, if_pos hchk]
      exact ih db acc h
    · rw [createRequestsFor, if_neg hchk]
      refine ih _ _ (createFeedbackRequest_unique h fun hr => hchk ?_)
      exact checkExistingAssignment_iff.2 hr

theorem managerStep_unique (e : Employee) (cy : String) (dd : ℚ)
    (s : DB × List FeedbackRequest) (h : uniqueKeys s.1.feedback_requests = true) :
    uniqueKeys (managerStep e cy dd s).1.feedback_requests = true := by
  unfold managerStep
  split
  · exact h
  · rename_i m _
    by_cases hchk : checkExistingAssignment s.1 e.id m cy
    · rw [if_pos hchk]
      exact h
    · rw [if_neg hchk]
      exact createFeedbackRequest_unique h fun hr => hchk (checkExistingAssignment_iff.2 hr)

theorem reportsStep_unique (e : Employee) (cy : String) (dd : ℚ)
    (s : DB × List FeedbackRequest) (h : uniqueKeys s.1.feedback_requests = true) :
    uniqueKeys (reportsStep e cy dd s).1.feedback_requests = true := by
  unfold reportsStep
  by_cases hm : e.is_manager
  · rw [if_pos hm]
    exact createRequestsFor_unique _ _ _ _ _ _ _ h
  · rw [if_neg hm]
    exact h

theorem assignEmployee_unique (e : Employee) (cy : String) (dd : ℚ) (n : Nat) (i360 : Bool)
    (now : ℚ) (db : DB) (acc : List FeedbackRequest)
    (h : uniqueKeys db.feedback_requests = true) :
    uniqueKeys (assignEmployee e cy dd n i360 now db acc).1.feedback_requests = true := by
  unfold assignEmployee
  by_cases h360 : i360
  · rw [if_pos h360]
    exact reportsStep_unique _ _ _ _ (managerStep_unique _ _ _ _
      (createRequestsFor_unique _ _ _ _ _ _ _ h))
  · rw [if_neg h360]
    exact createRequestsFor_unique _ _ _ _ _ _ _ h

theorem assignLoop_unique (cy : String) (dd : ℚ) (n : Nat) (i360 : Bool) (now : ℚ) :
    ∀ (es : List Employee) (db : DB) (acc : List FeedbackRequest),
      uniqueKeys db.feedback_requests = true →
      uniqueKeys (assignLoop es cy dd n i360 now db acc).1.feedback_requests = true := by
  intro es
  induction es with
  | nil => intro db acc h; exact h
  | cons e rest ih =>
    intro db acc h
    rw [assignLoop]
    exact ih _ _ (assignEmployee_unique e cy dd n i360 now db acc h)

/-- C7: a single run of `assignFeedbackRequests` preserves the uniqueness
invariant — if no two `feedback_requests` rows share a
`(requester_id, provider_id, cycle_id)` key before the run, none do after
it: every insert, on the peer path as well as the manager and upward
paths, is guarded by `checkExistingAssignment` against the live table. -/
theorem assignFeedbackRequests_preserves_uniqueness (db : DB) (cid : String) (n : Nat)
    (i360 : Bool) (now : ℚ) (h : uniqueKeys db.feedback_requests = true) :
    uniqueKeys (assignFeedbackRequests db cid n i360 now).1.feedback_requests = true := by
  have hrank : (rankAllPeers db now).feedback_requests = db.feedback_requests :=
    (rankAllPeers_frame db now).2.2.2.1.symm
  cases hc : getCycle (rankAllPeers db now) cid with
  | none =>
    rw [assignFeedbackRequests_eq_of_missing hc]
    show uniqueKeys (rankAllPeers db now).feedback_requests = true
    rw [hrank]
    exact h
  | some cyc =>
    rw [assignFeedbackRequests_eq_of_found n i360 hc]
    refine assignLoop_unique cid cyc.end_date n i360 now (rankAllPeers db now).employees
      (rankAllPeers db now) [] ?_
    rw [hrank]
    exact h

/-- Concrete database for the uniqueness witness: same shape as the
idempotence witness, with one request row already present. -/
def dbC7w : DB :=
  recordInteraction ⟨[⟨1, some 2, false⟩, ⟨2, none, true⟩], [], [],
    [⟨"c1", 99, "active"⟩], [⟨7, 1, 2, "c1", "peer", "pending", 99, none⟩], [], 8⟩
    1 2 "chat" 5 0 0

/-- Witness for C7 at a concrete database (one pre-existing request, both
hierarchy paths active): uniqueness holds before and still holds after. -/
theorem assignFeedbackRequests_preserves_uniqueness_witness :
    uniqueKeys (assignFeedbackRequests dbC7w "c1" 2 true 0).1.feedback_requests = true :=
  assignFeedbackRequests_preserves_uniqueness dbC7w "c1" 2 true 0 (by with_unfolding_all decide)

/-- Concrete database exhibiting the self-assignment bug: employee 1's only
interaction was recorded with `peerId` equal to their own id (allowed by
`recordInteraction`, which has no self check), plus one active cycle. -/
def dbC6 : DB :=
  recordInteraction ⟨[⟨1, none, false⟩], [], [], [⟨"c1", 1000, "active"⟩], [], [], 1⟩
    1 1 "chat" 1 0 0

set_option maxRecDepth 4000 in
/-- C6: the no-self-assignment invariant fails on the code.  After
`recordInteraction(1, 1, 'chat')`, running `assignFeedbackRequests` creates
the feedback request `(requester 1, provider 1)`: neither `getRankedPeers`
(despite its "excluding self" comment) nor any creation path filters out
`requester_id = provider_id`. -/
theorem assignFeedbackRequests_self_assignment_bug :
    (assignFeedbackRequests dbC6 "c1" 2 false 0).2 =
      some [⟨1, 1, 1, "c1", "peer", "pending", 1000, none⟩] ∧
    ((assignFeedbackRequests dbC6 "c1" 2 false 0).1.feedback_requests).any
      (fun r => r.requester_id = r.provider_id) = true := by
  with_unfolding_all decide

/-- C10: `updateRequestStatus` preserves the row count; at every position
the row keeps its `id`, `requester_id`, `provider_id`, `cycle_id`,
`request_type` and `due_date`; the targeted row's `status` becomes the
argument and its `completed_at` is overwritten with the current time
exactly when the new status is `completed` (any other status, including
moving a completed request back to `pending`, preserves the stored value);
rows with a different id are untouched. -/
theorem updateRequestStatus_frame (db : DB) (i : Nat) (s : String) (now : ℚ) (j : Nat)
    (hj : j < db.feedback_requests.length) :
    (updateRequestStatus db i s now).feedback_requests.length =
        db.feedback_requests.length ∧
    (∃ q, (updateRequestStatus db i s now).feedback_requests.get? j = some q ∧
      q.id = (db.feedback_requests.get ⟨j, hj⟩).id ∧
      q.requester_id = (db.feedback_requests.get ⟨j, hj⟩).requester_id ∧
      q.provider_id = (db.feedback_requests.get ⟨j, hj⟩).provider_id ∧
      q.cycle_id = (db.feedback_requests.get ⟨j, hj⟩).cycle_id ∧
      q.request_type = (db.feedback_requests.get ⟨j, hj⟩).request_type ∧
      q.due_date = (db.feedback_requests.get ⟨j, hj⟩).due_date ∧
      q.status = (if (db.feedback_requests.get ⟨j, hj⟩).id = i then s
        else (db.feedback_requests.get ⟨j, hj⟩).status) ∧
      q.completed_at = (if (db.feedback_requests.get ⟨j, hj⟩).id = i ∧ s = "completed"
        then some now else (db.feedback_requests.get ⟨j, hj⟩).completed_at)) := by
  constructor
  · simp [updateRequestStatus]
  · have hq : (updateRequestStatus db i s now).feedback_requests.get? j =
        some (if (db.feedback_requests.get ⟨j, hj⟩).id = i then
          { db.feedback_requests.get ⟨j, hj⟩ with
            status := s,
            completed_at := (if s = "completed" then some now
              else (db.feedback_requests.get ⟨j, hj⟩).completed_at) }
        else db.feedback_requests.get ⟨j, hj⟩) := by
      show (db.feedback_requests.map _).get? j = _
      rw [List.get?_map, List.get?_eq_get hj]
      rfl
    refine ⟨_, hq, ?_⟩
    by_cases hid : db.feedback_requests[j].id = i
    · by_cases hs : s = "completed" <;> simp [hid, hs]
    · simp [hid]

/-- Concrete database for the C10 witness: one completed request with a
stored completion time. -/
def dbC10w : DB :=
  ⟨[], [], [], [⟨"c", 99, "active"⟩], [⟨5, 1, 2, "c", "peer", "completed", 99, some 50⟩], [], 6⟩

/-- Witness for C10: moving the completed request back to `pending` keeps
`completed_at = some 50` and all identity fields. -/
theorem updateRequestStatus_frame_witness :
    (updateRequestStatus dbC10w 5 "pending" 77).feedback_requests.length =
        dbC10w.feedback_requests.length ∧
    (∃ q, (updateRequestStatus dbC10w 5 "pending" 77).feedback_requests.get? 0 = some q ∧
      q.id = (dbC10w.feedback_requests.get ⟨0, by with_unfolding_all decide⟩).id ∧
      q.requester_id =
        (dbC10w.feedback_requests.get ⟨0, by with_unfolding_all decide⟩).requester_id ∧
      q.provider_id =
        (dbC10w.feedback_requests.get ⟨0, by with_unfolding_all decide⟩).provider_id ∧
      q.cycle_id = (dbC10w.feedback_requests.get ⟨0, by with_unfolding_all decide⟩).cycle_id ∧
      q.request_type =
        (dbC10w.feedback_requests.get ⟨0, by with_unfolding_all decide⟩).request_type ∧
      q.due_date = (dbC10w.feedback_requests.get ⟨0, by with_unfolding_all decide⟩).due_date ∧
      q.status = (if (dbC10w.feedback_requests.get ⟨0, by with_unfolding_all decide⟩).id = 5
        then "pending"
        else (dbC10w.feedback_requests.get ⟨0, by with_unfolding_all decide⟩).status) ∧
      q.completed_at =
        (if (dbC10w.feedback_requests.get ⟨0, by with_unfolding_all decide⟩).id = 5 ∧
            ("pending" : String) = "completed"
        then some 77
        else (dbC10w.feedback_requests.get ⟨0, by with_unfolding_all decide⟩).completed_at)) :=
  updateRequestStatus_frame dbC10w 5 "pending" 77 0 (by with_unfolding_all decide)

/-- Concrete cycle with 10 requests, 7 of them completed and 3 pending. -/
def dbC8 : DB :=
  ⟨[], [], [], [⟨"c", 99, "active"⟩],
    (List.range 7).map (fun k => ⟨k, 1, 2, "c", "peer", "completed", 99, none⟩) ++
      (List.range 3).map (fun k => ⟨7 + k, 1, 2, "c", "peer", "pending", 99, none⟩),
    [], 11⟩

/-- C8: `getCycleStats` returns the cycle's request count and
completed/pending/overdue tallies, with `completion_rate =
completed / total * 100` rounded to two decimals whenever the cycle has
requests; a cycle with no requests gets the defined value `none` (NULL) as
its completion rate — the function is total, so no division-by-zero fault
can occur.  On a cycle with 10 requests, 7 completed, the rate is exactly
70. -/
theorem getCycleStats_spec (db : DB) (cid : String) :
    ((getCycleStats db cid).completion_rate = none ↔
      db.feedback_requests.filter (fun r => r.cycle_id = cid) = []) ∧
    (getCycleStats db cid).total_requests =
      (db.feedback_requests.filter fun r => r.cycle_id = cid).length ∧
    ((getCycleStats db cid).total_requests ≠ 0 →
      (getCycleStats db cid).completion_rate = some (round2
        (((db.feedback_requests.filter fun r => r.cycle_id = cid).countP
            (fun r => r.status = "completed") : ℚ) /
          ((getCycleStats db cid).total_requests : ℚ) * 100))) ∧
    getCycleStats dbC8 "c" = ⟨10, some 7, some 3, some 0, some 70⟩ := by
  refine ⟨?_, rfl, ?_, by with_unfolding_all decide⟩
  · simp only [getCycleStats]
    rw [← List.length_eq_zero]
    by_cases h : (db.feedback_requests.filter fun r => r.cycle_id = cid).length = 0 <;>
      simp [h]
  · intro h
    have h' : ¬ (db.feedback_requests.filter fun r => r.cycle_id = cid).length = 0 := h
    simp only [getCycleStats, if_neg h']
    rw [List.countP_eq_length_filter]

theorem foldl_close_eq_map (reqs : List FeedbackRequest) (now : ℚ) (ts : List FeedbackCycle) :
    ∀ cs : List FeedbackCycle,
      ts.foldl (fun cs c => if closeCondition reqs now c then
        cs.map (fun r => if r.id = c.id then { r with status := "completed" } else r)
        else cs) cs =
      cs.map fun r =>
        if ∃ c ∈ ts, closeCondition reqs now c = true ∧ c.id = r.id then
          { r with status := "completed" } else r := by
  induction ts with
  | nil =>
    intro cs
    simp
  | cons t ts ih =>
    intro cs
    rw [List.foldl_cons]
    by_cases hC : closeCondition reqs now t
    · rw [if_pos hC, ih, List.map_map]
      refine List.map_congr_left fun r _ => ?_
      by_cases hid : r.id = t.id
      · simp [Function.comp, hid, hC]
      · have ht : ¬ t.id = r.id := fun h => hid h.symm
        simp [Function.comp, hid, ht]
    · rw [if_neg hC, ih]
      refine List.map_congr_left fun r _ => ?_
      have ht : ¬ (closeCondition reqs now t = true ∧ t.id = r.id) := fun h => hC h.1
      simp [ht]

/-- C9 (amended): a cycle-status poll `autoCloseCycles` examines only the
active cycles whose `end_date` already lies before `now`; among those it
marks a cycle `completed` exactly when the close condition holds
(completion rate at least 90% over a non-empty request set, or the end
date passed by at least 7 days, by day-ceiling).  All other rows — active
cycles not yet past their end date even with a high completion rate, and
the terminal `completed`/`archived` states — are left untouched; no
operation moves a cycle out of `completed` or `archived`.  The cycle-id
injectivity hypothesis is the table's PRIMARY KEY. -/
theorem autoCloseCycles_characterization (db : DB) (now : ℚ)
    (hid : ∀ a ∈ db.feedback_cycles, ∀ b ∈ db.feedback_cycles, a.id = b.id → a = b) :
    (autoCloseCycles db now).feedback_cycles = db.feedback_cycles.map fun c =>
      if c.status = "active" ∧ c.end_date < now ∧
          closeCondition db.feedback_requests now c = true then
        { c with status := "completed" }
      else c := by
  show (db.feedback_cycles.filter _).foldl _ db.feedback_cycles = _
  rw [foldl_close_eq_map]
  refine List.map_congr_left fun r hr => ?_
  refine if_congr ?_ rfl rfl
  constructor
  · rintro ⟨c, hc, hcond, hcid⟩
    rcases List.mem_filter.1 hc with ⟨hcmem, hcpred⟩
    have hceq : c = r := hid c hcmem r hr hcid
    subst hceq
    have hcpred' : c.status = "active" ∧ c.end_date < now := by simpa using hcpred
    exact ⟨hcpred'.1, hcpred'.2, hcond⟩
  · rintro ⟨ha, he, hcond⟩
    refine ⟨r, List.mem_filter.2 ⟨hr, ?_⟩, hcond, rfl⟩
    simp [ha, he]

/-- Concrete state refuting C9 as stated: cycle `c` is active with
`end_date = 10` still in the future at `now = 5`, and its single request is
completed, so its completion rate is 100% ≥ 90%. -/
def dbC9 : DB :=
  ⟨[], [], [], [⟨"c", 10, "active"⟩], [⟨1, 1, 2, "c", "peer", "completed", 10, none⟩], [], 2⟩

set_option maxRecDepth 4000 in
/-- C9 counterexample: the claim says the poll marks an active cycle
completed exactly when completion rate ≥ 90% or the end date passed by ≥ 7
days — but on `dbC9` at `now = 5` the completion rate is 100% and the
cycle nevertheless stays `active`, because `autoCloseCycles` only
considers cycles whose end date has already passed. -/
theorem autoCloseCycles_high_rate_before_end_cex :
    (getCycleStats dbC9 "c").completion_rate = some 100 ∧
    (autoCloseCycles dbC9 5).feedback_cycles = [⟨"c", 10, "active"⟩] := by
  with_unfolding_all decide

/-- Concrete state for the C9 witness: one ended cycle with a fully
completed request set (it closes), one ended empty cycle not yet 7 days
past (it stays), one future cycle (untouched), one archived cycle
(untouched). -/
def dbC9w : DB :=
  ⟨[], [], [],
    [⟨"a", 10, "active"⟩, ⟨"b", 10, "active"⟩, ⟨"f", 900, "active"⟩, ⟨"z", 10, "archived"⟩],
    [⟨1, 1, 2, "a", "peer", "completed", 10, none⟩], [], 2⟩

set_option maxRecDepth 8000 in
/-- Witness for the amended C9 at a concrete state and `now = 20`
(10 milliseconds past the end dates, far less than 7 days): cycle `a`
closes on its 100% completion rate, `b` stays active, `f` and `z` are
untouched. -/
theorem autoCloseCycles_characterization_witness :
    (autoCloseCycles dbC9w 20).feedback_cycles = dbC9w.feedback_cycles.map fun c =>
      if c.status = "active" ∧ c.end_date < 20 ∧
          closeCondition dbC9w.feedback_requests 20 c = true then
        { c with status := "completed" }
      else c :=
  autoCloseCycles_characterization dbC9w 20 (by with_unfolding_all decide)

theorem assignFeedbackRequestsF_eq_of_found {fault : InsertFault} {db : DB} {cid : String}
    {n : Nat} {i360 : Bool} {now : ℚ} {cyc : FeedbackCycle}
    (h : getCycle (rankAllPeers db now) cid = some cyc) :
    assignFeedbackRequestsF fault db cid n i360 now =
      assignLoopF fault (rankAllPeers db now).employees cid cyc.end_date n i360 now
        (rankAllPeers db now) [] := by
  unfold assignFeedbackRequestsF
  simp only [h]

/-- C5 (amended): there is no per-employee fault isolation — when the
assignment step of the first employee in the table throws a storage error,
the whole `assignFeedbackRequests` invocation surfaces exactly that error
together with the state reached at the throw: the remaining employees are
never processed (the result does not depend on `rest`), and the caller
receives no aggregate success summary.  The only structured check is the
initial cycle lookup, whose failure likewise aborts the whole run. -/
theorem assignFeedbackRequests_fault_propagates (fault : InsertFault) (db : DB)
    (cid : String) (n : Nat) (i360 : Bool) (now : ℚ) (cyc : FeedbackCycle) (e : Employee)
    (rest : List Employee) (db1 : DB) (msg : String)
    (hcyc : getCycle (rankAllPeers db now) cid = some cyc)
    (hemps : (rankAllPeers db now).employees = e :: rest)
    (hstep : assignEmployeeF fault e cid cyc.end_date n i360 now (rankAllPeers db now) [] =
      (db1, .error msg)) :
    assignFeedbackRequestsF fault db cid n i360 now = (db1, .error msg) := by
  rw [assignFeedbackRequestsF_eq_of_found hcyc, hemps, assignLoopF, hstep]

deriving instance DecidableEq for Except

/-- The storage-fault oracle of the C5 scenario: the insert for
`(requester 1, provider 3)` throws; every other insert succeeds. -/
def faultC5 : InsertFault := fun r p => r = 1 ∧ p = 3

/-- The C5 scenario state: employees 1 and 2 both report to manager 3, no
interactions, one active cycle; assignment runs with `include360`. -/
def dbC5 : DB :=
  ⟨[⟨1, some 3, false⟩, ⟨2, some 3, false⟩, ⟨3, none, true⟩], [], [],
    [⟨"c1", 99, "active"⟩], [], [], 1⟩

/-- C5 counterexample: with employee 1's manager-request insert faulting,
the whole invocation returns the storage error and employee 2 — whose own
step did not fail — gets no request at all, although the same run without
the fault creates one for them: the failure is not isolated and no
aggregate result is returned. -/
theorem assignFeedbackRequests_fault_aborts_cex :
    (assignFeedbackRequestsF faultC5 dbC5 "c1" 2 true 0).2 = .error "SQLITE_ERROR" ∧
    ((assignFeedbackRequestsF faultC5 dbC5 "c1" 2 true 0).1.feedback_requests.any
      fun q => q.requester_id = 2) = false ∧
    ((assignFeedbackRequestsF (fun _ _ => false) dbC5 "c1" 2 true 0).1.feedback_requests.any
      fun q => q.requester_id = 2) = true := by
  with_unfolding_all decide

/-- Witness for the amended C5: on the concrete scenario the invocation
returns the first employee's storage error with the pre-throw state. -/
theorem assignFeedbackRequests_fault_propagates_witness :
    assignFeedbackRequestsF faultC5 dbC5 "c1" 2 true 0 =
      (rankAllPeers dbC5 0, .error "SQLITE_ERROR") :=
  assignFeedbackRequests_fault_propagates faultC5 dbC5 "c1" 2 true 0 ⟨"c1", 99, "active"⟩
    ⟨1, some 3, false⟩ [⟨2, some 3, false⟩, ⟨3, none, true⟩] (rankAllPeers dbC5 0)
    "SQLITE_ERROR" (by with_unfolding_all decide) (by with_unfolding_all decide)
    (by with_unfolding_all decide)
